import Mathlib

/-!
# Verification of the chat-to-video frame synthesis pipeline

Shallow embedding of `chat-to-video.js` (the v2 script: `parseMessages`,
`preloadEmoji`, `findMessageIndexAtTime`, `wrapMessage` inside `drawMessage`,
`drawChat`, and the `main` frame loop), together with theorems settling the
frozen claims about the specification.

Modelling conventions:
* JavaScript numbers are modelled as `ℚ` (all arithmetic in the claims is exact
  dyadic arithmetic, where binary floating point and `ℚ` agree).
* Optional / possibly-`undefined` JSON fields are `Option` fields; JavaScript
  truthiness of the time-offset field (`undefined`, `0`, `""` are falsy) is
  `jsTruthy`.
* The `Number(...)` conversion of a string is an external JS primitive and is
  abstracted as a parameter `toNum : String → ℚ`.
* A thrown `TypeError` (property access on `undefined`) is `Except.error ()`.
* `loadImage` / avatar resolution are asynchronous external collaborators and
  are abstracted as function parameters (`load : String → Option CImage`,
  `avatarOf : LiveChatTextMessageRenderer → Option CImage`); `none` models a
  caught load failure.
* `ctx.measureText(word + ' ').width` is abstracted as a per-word width
  function `wW : String → ℚ`, and the horizontal extent of a placed text run
  is the sum of its word widths — exactly the accounting the source itself
  uses to advance its cursor `x`.
-/

/-- A decoded raster image, identified by its source handle. -/
structure CImage where
  src : String
deriving DecidableEq

/-- One thumbnail entry `{url}` of an avatar photo or emoji image. -/
structure Thumbnail where
  url : String
deriving DecidableEq

/-- `emoji.image`: optional thumbnail list plus optional accessibility label. -/
structure EmojiImage where
  thumbnails : Option (List Thumbnail)
  label : Option String
deriving DecidableEq

/-- A custom-emoji object `{emojiId, image}` carried by a message run. -/
structure Emoji where
  emojiId : String
  image : Option EmojiImage
deriving DecidableEq

/-- One entry of `message.runs`: a `{text}` and/or `{emoji}` fragment. -/
structure Run where
  text : Option String
  emoji : Option Emoji
deriving DecidableEq

/-- `liveChatTextMessageRenderer.authorName`, an object holding `simpleText`. -/
structure AuthorName where
  simpleText : Option String
deriving DecidableEq

/-- `liveChatTextMessageRenderer.message`, an object holding `runs`. -/
structure MessageBody where
  runs : Option (List Run)
deriving DecidableEq

/-- `liveChatTextMessageRenderer.authorPhoto`. -/
structure AuthorPhoto where
  thumbnails : Option (List Thumbnail)
deriving DecidableEq

/-- The text-message renderer object of an add-chat-item action. -/
structure LiveChatTextMessageRenderer where
  authorName : Option AuthorName
  message : Option MessageBody
  authorExternalChannelId : Option String
  authorPhoto : Option AuthorPhoto
deriving DecidableEq

/-- `addChatItemAction.item`. -/
structure ChatItem where
  liveChatTextMessageRenderer : Option LiveChatTextMessageRenderer
deriving DecidableEq

/-- `actions[0].addChatItemAction`. -/
structure AddChatItemAction where
  item : Option ChatItem
deriving DecidableEq

/-- One element of `replayChatItemAction.actions`. -/
structure ChatAction where
  addChatItemAction : Option AddChatItemAction
deriving DecidableEq

/-- A JSON scalar as stored in a `videoOffsetTimeMsec` field: yt-dlp emits it
as a string, but a number is also possible. -/
inductive JVal where
  | num (q : ℚ)
  | str (s : String)
deriving DecidableEq

/-- `message.replayChatItemAction`: the action list and the replay-level
millisecond offset (the fallback location of the time offset). -/
structure ReplayChatItemAction where
  actions : Option (List (Option ChatAction))
  videoOffsetTimeMsec : Option JVal
deriving DecidableEq

/-- One raw newline-delimited JSON record of the `.live_chat.json` log,
restricted to the fields the script reads. -/
structure RawRecord where
  replayChatItemAction : Option ReplayChatItemAction
  videoOffsetTimeMsec : Option JVal
deriving DecidableEq

/-- JavaScript truthiness of an optional scalar field: `undefined`, the number
`0` and the empty string are falsy, everything else is truthy. -/
def jsTruthy : Option JVal → Bool
  | none => false
  | some (.num q) => q != 0
  | some (.str s) => s != ""

/-- `Number(v)` on a value that is already a number or a string; the string
case is the external JS `Number` primitive, supplied as `toNum`. -/
def jsNumber (toNum : String → ℚ) : JVal → ℚ
  | .num q => q
  | .str s => toNum s

/-- The normalized chat message the v2 `parseMessages` pushes:
`{author, avatar, text, time}` where `text` holds the raw `runs` list
(which is `undefined`, i.e. `none`, when the renderer's message body has no
`runs` field) and `time` is the millisecond offset divided by 1000. -/
structure ChatMessage where
  author : Option String
  avatar : Option CImage
  text : Option (List Run)
  time : ℚ
deriving DecidableEq

/-- One iteration of the v2 `parseMessages` loop over a single raw record.
Mirrors the source's guard chain in order: each `continue` is `.ok none`;
a record that passes every guard contributes `.ok (some msg)`.
`.error ()` models the `TypeError` thrown by `liveChatMessage.message.runs`
when the renderer has no `message` field (no guard checks it). -/
def parseOne (toNum : String → ℚ)
    (avatarOf : LiveChatTextMessageRenderer → Option CImage)
    (skipAvatars : Bool) (msg : RawRecord) : Except Unit (Option ChatMessage) :=
  match msg.replayChatItemAction with
  | none => .ok none
  | some rca =>
    match rca.actions with
    | none => .ok none
    | some acts =>
      match acts with
      | [] => .ok none
      | none :: _ => .ok none
      | some chatAction :: _ =>
        match chatAction.addChatItemAction with
        | none => .ok none
        | some aca =>
          match aca.item with
          | none => .ok none
          | some item =>
            match item.liveChatTextMessageRenderer with
            | none => .ok none
            | some lcm =>
              match lcm.authorName with
              | none => .ok none
              | some authorName =>
                let authorAvatar := if skipAvatars then none else avatarOf lcm
                let messageTime :=
                  if jsTruthy msg.videoOffsetTimeMsec then msg.videoOffsetTimeMsec
                  else rca.videoOffsetTimeMsec
                match messageTime with
                | none => .ok none
                | some v =>
                  if jsTruthy (some v) then
                    match lcm.message with
                    | none => .error ()
                    | some body =>
                      .ok (some { author := authorName.simpleText
                                  avatar := authorAvatar
                                  text := body.runs
                                  time := jsNumber toNum v / 1000 })
                  else .ok none

/-- The main record loop of the v2 `parseMessages`: processes records in input
order, pushing the accepted ones; the first thrown `TypeError` escapes. -/
def parseLoop (toNum : String → ℚ)
    (avatarOf : LiveChatTextMessageRenderer → Option CImage)
    (skipAvatars : Bool) : List RawRecord → Except Unit (List ChatMessage)
  | [] => .ok []
  | m :: ms =>
    match parseOne toNum avatarOf skipAvatars m with
    | .error e => .error e
    | .ok none => parseLoop toNum avatarOf skipAvatars ms
    | .ok (some c) => (parseLoop toNum avatarOf skipAvatars ms).map (c :: ·)

/-- The global `imageCache` map (entries in insertion order) plus the ordered
log of emoji ids for which `loadImage` was invoked (one log entry per
`Downloading emoji ...` line in the source). -/
structure CacheState where
  cache : List (String × CImage)
  log : List String
deriving DecidableEq

/-- `preloadEmoji(emoji)`: returns the updated cache state and the source's
boolean result. A cache hit returns immediately; otherwise, if a thumbnail URL
exists, `loadImage` is invoked (logged); on success the image is cached, on a
caught failure nothing is cached. -/
def preloadEmoji (load : String → Option CImage) (st : CacheState) (e : Emoji) :
    CacheState × Bool :=
  if (st.cache.lookup e.emojiId).isSome then (st, true)
  else
    match e.image with
    | none => (st, false)
    | some img =>
      match img.thumbnails with
      | none => (st, false)
      | some [] => (st, false)
      | some (t :: _) =>
        match load t.url with
        | some i => (⟨st.cache ++ [(e.emojiId, i)], st.log ++ [e.emojiId]⟩, true)
        | none => (⟨st.cache, st.log ++ [e.emojiId]⟩, false)

/-- The inner `for (const span of message.text)` of the emoji-preload loop:
spans whose `emoji` field is present are preloaded, in order. -/
def preloadRuns (load : String → Option CImage) (runs : List Run)
    (st : CacheState) : CacheState :=
  runs.foldl
    (fun s r => match r.emoji with
      | some e => (preloadEmoji load s e).1
      | none => s) st

/-- The emoji-preload phase of `parseMessages`: iterates all parsed messages;
`for (const span of message.text)` throws a `TypeError` when `text` is
`undefined` (a renderer whose message body had no `runs` list). -/
def preloadAll (load : String → Option CImage) :
    List ChatMessage → CacheState → Except Unit CacheState
  | [], st => .ok st
  | m :: ms, st =>
    match m.text with
    | none => .error ()
    | some runs => preloadAll load ms (preloadRuns load runs st)

/-- The whole v2 `parseMessages`: the record loop followed by the emoji-preload
phase, returning the normalized messages and the final cache state. -/
def parseMessages (toNum : String → ℚ)
    (avatarOf : LiveChatTextMessageRenderer → Option CImage)
    (load : String → Option CImage) (skipAvatars : Bool)
    (msgs : List RawRecord) (st : CacheState) :
    Except Unit (List ChatMessage × CacheState) :=
  match parseLoop toNum avatarOf skipAvatars msgs with
  | .error e => .error e
  | .ok result =>
    match preloadAll load result st with
    | .error e => .error e
    | .ok st' => .ok (result, st')

/-! ## Specification-side characterization of the normalizer (for refinement)

The following definitions follow the words of spec §4.1 / §8: a record is
accepted only if it represents an "add chat item" action whose item is a
text-message renderer with a present author display name and a
present/derivable time offset (prefer a live offset field; fall back to a
replay-action-level offset field); the accepted record yields exactly one
`ChatMessage` with `timestampSeconds = offsetMs/1000`. -/

/-- Spec side: the text-message renderer a record carries, when the record
represents an add-chat-item action whose item is a text-message renderer. -/
def recordRenderer? (r : RawRecord) : Option LiveChatTextMessageRenderer :=
  match r.replayChatItemAction with
  | none => none
  | some rca =>
    match rca.actions with
    | none => none
    | some [] => none
    | some (none :: _) => none
    | some (some ca :: _) =>
      (ca.addChatItemAction.bind (·.item)).bind (·.liveChatTextMessageRenderer)

/-- Spec side: the record's usable time offset — the live offset field is
preferred; when it is not usable the replay-action-level field is the
fallback. -/
def specOffset? (r : RawRecord) : Option JVal :=
  if jsTruthy r.videoOffsetTimeMsec then r.videoOffsetTimeMsec
  else
    match r.replayChatItemAction with
    | some rca => rca.videoOffsetTimeMsec
    | none => none

/-- Spec side: acceptance — an add-chat-item action carrying a text-message
renderer, with a present author display name and a usable time offset. -/
def specAccepts (r : RawRecord) : Bool :=
  ((recordRenderer? r).bind (·.authorName)).isSome && jsTruthy (specOffset? r)

/-- Spec side: the single `ChatMessage` an accepted record contributes, with
`timestampSeconds = offsetMs / 1000` (no rounding); `none` for a rejected
record. -/
def specMessage (toNum : String → ℚ)
    (avatarOf : LiveChatTextMessageRenderer → Option CImage)
    (skipAvatars : Bool) (r : RawRecord) : Option ChatMessage :=
  match recordRenderer? r with
  | none => none
  | some lcm =>
    match lcm.authorName with
    | none => none
    | some an =>
      match specOffset? r with
      | none => none
      | some v =>
        if jsTruthy (some v) then
          some { author := an.simpleText
                 avatar := if skipAvatars then none else avatarOf lcm
                 text := lcm.message.bind (·.runs)
                 time := jsNumber toNum v / 1000 }
        else none

/-! ## Playhead and frame pump (v2 `main`) -/

/-- `findMessageIndexAtTime` (v2): the first index whose message time exceeds
`time`; if none exceeds it, `messages.length - 1` (which is `-1` on an empty
list, hence the `ℤ` result, exactly as in the source). -/
def findMessageIndexAtTime (times : List ℚ) (time : ℚ) : ℤ :=
  match times.findIdx? (fun t => decide (time < t)) with
  | some i => (i : ℤ)
  | none => (times.length : ℤ) - 1

/-- The frame loop's mutable state: `currentMessageIndex`, `currentTime`, and
the canvas content — `none` while only the initial background fill has been
drawn, `some k` after `drawChat(ctx, messages, k)` last repainted it. -/
structure FrameState where
  idx : ℕ
  currentTime : ℚ
  canvas : Option ℕ
deriving DecidableEq

/-- What one iteration of the frame loop produces: the `currentTime` value the
frame's reveal check compared against, and the canvas content serialized into
this frame. -/
structure FrameOut where
  checkTime : ℚ
  canvas : Option ℕ
deriving DecidableEq

/-- One iteration (frame `i`) of the v2 frame loop: a single conditional
reveal check (`currentMessageIndex < messages.length && currentTime >=
messages[currentMessageIndex].time`), redrawing and advancing the index at
most once; the frame is then serialized and `currentTime` is set to
`timeFrom + i / frameRate` at the end of the iteration. -/
def frameStep (times : List ℚ) (timeFrom frameRate : ℚ) (s : FrameState)
    (i : ℕ) : FrameState × FrameOut :=
  let s1 : FrameState :=
    match times[s.idx]? with
    | some t =>
      if t ≤ s.currentTime then { s with canvas := some s.idx, idx := s.idx + 1 }
      else s
    | none => s
  ({ idx := s1.idx, currentTime := timeFrom + (i : ℚ) / frameRate,
     canvas := s1.canvas },
   { checkTime := s.currentTime, canvas := s1.canvas })

/-- Running the first `n` iterations of the frame loop from state `s`,
collecting the per-frame outputs in order. -/
def runFrames (times : List ℚ) (timeFrom frameRate : ℚ) (n : ℕ)
    (s : FrameState) : FrameState × List FrameOut :=
  (List.range n).foldl
    (fun acc i =>
      let p := frameStep times timeFrom frameRate acc.1 i
      (p.1, acc.2 ++ [p.2]))
    (s, [])

/-- How many messages `drawChat(ctx, messages, k)` draws on a canvas: it walks
`j = 0 .. maxMessagesShown-1` over `messages[k - j]`, skipping missing
entries; a canvas holding only the background shows zero messages. -/
def shownCount (maxMessagesShown n : ℕ) (canvas : Option ℕ) : ℕ :=
  match canvas with
  | none => 0
  | some k => ((List.range maxMessagesShown).filter
      (fun j => decide (j ≤ k) && decide (k - j < n))).length

/-- `duration = (timeTo - timeFrom) + 2.0` (v2 `main`, fixed 2-second pad). -/
def videoDuration (timeFrom timeTo : ℚ) : ℚ := (timeTo - timeFrom) + 2

/-- `frames = Math.floor(frameRate * duration)` (v2 `main`). -/
def totalFrames (frameRate timeFrom timeTo : ℚ) : ℤ :=
  ⌊frameRate * videoDuration timeFrom timeTo⌋

/-- The externally visible effects of the v2 `main` run, in program order. -/
inductive MainEvent where
  | reportError (msg : String)
  | createCanvas
  | setupEncoder
  | emitFrame (canvas : Option ℕ)
deriving DecidableEq

/-- The v2 `main` driver after normalization, as its ordered effect trace:
abort with an error if the normalized list is empty; seed the playhead with
`findMessageIndexAtTime`; abort with an error if the padded duration is
non-positive (both aborts happen before the canvas and the encoder exist);
otherwise create the canvas, set up the encoder, and emit every frame of the
loop. -/
def runMain (times : List ℚ) (timeFrom timeTo frameRate : ℚ) :
    List MainEvent :=
  if times.length = 0 then [.reportError "Failed to read messages"]
  else
    let seed := (findMessageIndexAtTime times timeFrom).toNat
    if videoDuration timeFrom timeTo ≤ 0 then
      [.reportError "Invalid video duration"]
    else
      let n := (totalFrames frameRate timeFrom timeTo).toNat
      let outs := (runFrames times timeFrom frameRate n
        { idx := seed, currentTime := timeFrom, canvas := none }).2
      [.createCanvas, .setupEncoder] ++ outs.map (fun o => .emitFrame o.canvas)

/-! ## Layout engine (v2 `wrapMessage` inside `drawMessage`) -/

/-- `EMOJI_SIZE` (v2 `drawMessage`). -/
def EMOJI_SIZE : ℚ := 16

/-- Helper for `jsSplitSpace`: walk the characters, cutting at every space. -/
def jsSplitAux : List Char → List Char → List String
  | [], acc => [String.mk acc.reverse]
  | c :: cs, acc =>
    if c = ' ' then String.mk acc.reverse :: jsSplitAux cs []
    else jsSplitAux cs (c :: acc)

/-- The JavaScript `text.split(' ')`: split on every single space character,
keeping empty fragments (`"a  b"` gives `["a", "", "b"]`). -/
def jsSplitSpace (t : String) : List String := jsSplitAux t.data []

/-- An entry the wrapper pushes onto a layout line: a text run
`{x, text: w1+' '+w2+' '...}` (modelled by its start offset and word list) or
an emoji glyph `{x, emoji}`. -/
inductive PlacedItem where
  | textRun (x : ℚ) (words : List String)
  | emojiGlyph (x : ℚ) (e : Emoji)
deriving DecidableEq

/-- The start offset of a placed item. -/
def itemX : PlacedItem → ℚ
  | .textRun x _ => x
  | .emojiGlyph x _ => x

/-- The width of a placed item: the sum of the measured widths of its words
(each word measured with its trailing space, exactly as the source advances
its cursor), or the fixed emoji size. -/
def itemWidth (wW : String → ℚ) : PlacedItem → ℚ
  | .textRun _ ws => (ws.map wW).sum
  | .emojiGlyph _ _ => EMOJI_SIZE

/-- The rightmost extent of a placed item. -/
def itemExtent (wW : String → ℚ) (p : PlacedItem) : ℚ :=
  itemX p + itemWidth wW p

/-- The wrapper's mutable state: the completed layout lines (every push in the
source targets the line at `currentLine`, which is always the last one), the
current line, and the horizontal cursor `x`. -/
structure WrapSt where
  done : List (List PlacedItem)
  cur : List PlacedItem
  x : ℚ
deriving DecidableEq

/-- One iteration of the word loop of a text span, on state
`(st, textX, acc)` where `textX`/`acc` are the pending run's start offset and
accumulated words. If `x + wordWidth` exceeds the canvas width, the pending
run (possibly empty) is flushed onto the current line at `textX`, a new line
is started and the cursor resets to `authorX`; the word (and its trailing
space's width) is then appended unconditionally. -/
def wordStep (authorX maxW : ℚ) (wW : String → ℚ)
    (s : WrapSt × ℚ × List String) (w : String) : WrapSt × ℚ × List String :=
  let st := s.1
  let textX := s.2.1
  let acc := s.2.2
  let ww := wW w
  if maxW < st.x + ww then
    (⟨st.done ++ [st.cur ++ [.textRun textX acc]], [], authorX + ww⟩,
     authorX, [w])
  else
    (⟨st.done, st.cur, st.x + ww⟩, textX, acc ++ [w])

/-- The text-span branch of `wrapMessage`: split the text on single spaces,
run the word loop, and flush the remaining pending run if it is non-empty
(`if (text.length > 0)`). -/
def textSpanStep (authorX maxW : ℚ) (wW : String → ℚ) (st : WrapSt)
    (t : String) : WrapSt :=
  let words := jsSplitSpace t
  let r := words.foldl (wordStep authorX maxW wW) (st, st.x, [])
  if r.2.2.isEmpty then r.1
  else ⟨r.1.done, r.1.cur ++ [.textRun r.2.1 r.2.2], r.1.x⟩

/-- The emoji branch of `wrapMessage`: if the fixed-size glyph does not fit,
start a new line at `authorX`; place the glyph at the cursor and advance. -/
def emojiStep (authorX maxW : ℚ) (st : WrapSt) (e : Emoji) : WrapSt :=
  if maxW < st.x + EMOJI_SIZE then
    ⟨st.done ++ [st.cur], [.emojiGlyph authorX e], authorX + EMOJI_SIZE⟩
  else
    ⟨st.done, st.cur ++ [.emojiGlyph st.x e], st.x + EMOJI_SIZE⟩

/-- One span of the message: the text branch runs when `span.text` is truthy
(present and non-empty), then the emoji branch runs when `span.emoji` is
present. -/
def runStep (authorX maxW : ℚ) (wW : String → ℚ) (st : WrapSt) (r : Run) :
    WrapSt :=
  let st1 :=
    match r.text with
    | some t => if t = "" then st else textSpanStep authorX maxW wW st t
    | none => st
  match r.emoji with
  | some e => emojiStep authorX maxW st1 e
  | none => st1

/-- The v2 `wrapMessage`: fold the spans over an initial state with one empty
line and the cursor at `messageX` (the end of the author-name prefix), and
return every line including the final one. -/
def wrapMessage (wW : String → ℚ) (messageX authorX maxW : ℚ)
    (runs : List Run) : List (List PlacedItem) :=
  let st := runs.foldl (runStep authorX maxW wW) ⟨[], [], messageX⟩
  st.done ++ [st.cur]

/-- A placed item that is a single unsplit token: a one-word text run or one
emoji glyph. -/
def isSingleToken : PlacedItem → Bool
  | .textRun _ [_] => true
  | .emojiGlyph _ _ => true
  | _ => false

/-- A single unsplit word or emoji that by itself extends past the maximum
width (it is wider than the width available at its start offset). -/
def overflowToken (wW : String → ℚ) (maxW : ℚ) (p : PlacedItem) : Prop :=
  maxW < itemExtent wW p ∧ isSingleToken p = true

/-- The wrap-correctness property of one layout line as the claim states it:
either every placed item fits within the maximum width, or the line's
overflow is due to a single oversized unsplit token it contains. -/
def lineOK (wW : String → ℚ) (maxW : ℚ) (L : List PlacedItem) : Prop :=
  (∀ p ∈ L, itemExtent wW p ≤ maxW) ∨ ∃ p ∈ L, overflowToken wW maxW p

/-- Strengthened per-item invariant used to prove `lineOK`: every item fits,
or is an oversized single token, or is a zero-width (empty) run on a line
that contains an oversized single token. -/
def lineOKS (wW : String → ℚ) (maxW : ℚ) (L : List PlacedItem) : Prop :=
  ∀ p ∈ L, itemExtent wW p ≤ maxW ∨ overflowToken wW maxW p ∨
    (itemWidth wW p = 0 ∧ ∃ q ∈ L, overflowToken wW maxW q)

/-- A token of the message content: a word or an emoji glyph. Wrapping never
splitting a word or emoji means the flattened token sequence of the produced
layout equals the flattened token sequence of the input spans. -/
abbrev ChatToken : Type := String ⊕ Emoji

/-- The tokens of one placed item, in order. -/
def itemTokens : PlacedItem → List ChatToken
  | .textRun _ ws => ws.map Sum.inl
  | .emojiGlyph _ e => [Sum.inr e]

/-- The tokens of one layout line, in order. -/
def lineTokens (L : List PlacedItem) : List ChatToken :=
  (L.map itemTokens).flatten

/-- The tokens of the whole layout, in order. -/
def layoutTokens (lines : List (List PlacedItem)) : List ChatToken :=
  (lines.map lineTokens).flatten

/-- The tokens the wrapper consumes from one span, in processing order: the
words of a truthy text fragment, then the emoji glyph if present. -/
def runTokens (r : Run) : List ChatToken :=
  (match r.text with
   | some t => if t = "" then [] else (jsSplitSpace t).map Sum.inl
   | none => []) ++
  (match r.emoji with
   | some e => [Sum.inr e]
   | none => [])

/-- The tokens of the whole input content, in order. -/
def contentTokens (runs : List Run) : List ChatToken :=
  (runs.map runTokens).flatten

/-- Token multiset of a wrapper state (completed lines, current line, pending
accumulator), used for the no-split bookkeeping. -/
def stTokens (st : WrapSt) : List ChatToken :=
  (st.done.map lineTokens).flatten ++ lineTokens st.cur

/-- Invariant of the wrapper state between spans: all completed lines and the
current line satisfy the per-item property, and the cursor either lies within
the maximum width or sits exactly at the extent of an oversized single token
already on the current line. -/
def wrapInv (wW : String → ℚ) (maxW : ℚ) (st : WrapSt) : Prop :=
  (∀ L ∈ st.done, lineOKS wW maxW L) ∧ lineOKS wW maxW st.cur ∧
    (st.x ≤ maxW ∨ ∃ q ∈ st.cur, overflowToken wW maxW q ∧ itemExtent wW q = st.x)

/-- Invariant of the word loop inside a text span (state
`(st, textX, acc)`): lines are good, the cursor equals the pending run's
start plus the width of its accumulated words, and the cursor is within the
maximum width unless the accumulator is empty (with an oversized token at the
cursor on the current line) or holds exactly one word. -/
def wordInv (wW : String → ℚ) (maxW : ℚ) (s : WrapSt × ℚ × List String) :
    Prop :=
  (∀ L ∈ s.1.done, lineOKS wW maxW L) ∧ lineOKS wW maxW s.1.cur ∧
    s.1.x = s.2.1 + (s.2.2.map wW).sum ∧
    (s.1.x ≤ maxW ∨
      (s.2.2 = [] ∧ ∃ q ∈ s.1.cur, overflowToken wW maxW q ∧
        itemExtent wW q = s.1.x) ∨
      ∃ w, s.2.2 = [w])

/-- Proof measure for the single-fetch property of one emoji id: the number
of logged loader invocations for the id, plus one while the id is still
uncached. With a loader that always succeeds, no preload step increases it. -/
def cacheMeasure (id : String) (st : CacheState) : ℕ :=
  st.log.count id + (if (st.cache.lookup id).isSome then 0 else 1)

/-! ## Concrete values used by witnesses and counterexamples -/

/-- A trivial model of the JS `Number` primitive on strings. -/
def toNumZero : String → ℚ := fun _ => 0

/-- Avatar resolution that always fails (or is skipped). -/
def avatarNone : LiveChatTextMessageRenderer → Option CImage := fun _ => none

/-- An image loader whose every fetch fails (every load is caught). -/
def loadFail : String → Option CImage := fun _ => none

/-- An image loader whose every fetch succeeds. -/
def loadOk : String → Option CImage := fun _ => some ⟨"img"⟩

/-- A custom emoji with id `"x"` and one thumbnail URL. -/
def emojiX : Emoji := { emojiId := "x", image := some { thumbnails := some [⟨"u"⟩], label := none } }

/-- A message run holding only the emoji `emojiX`. -/
def runEmojiX : Run := { text := none, emoji := some emojiX }

/-- A normalized message whose content references the same emoji id twice. -/
def msgEmojiTwice : ChatMessage :=
  { author := some "a", avatar := none, text := some [runEmojiX, runEmojiX], time := 1 }

/-- Builds a raw record representing an add-chat-item action carrying the
given text-message renderer, with the given live and replay offsets. -/
def mkTextRecord (lcm : LiveChatTextMessageRenderer) (live replay : Option JVal) :
    RawRecord :=
  { replayChatItemAction :=
      some { actions := some [some ⟨some ⟨some ⟨some lcm⟩⟩⟩], videoOffsetTimeMsec := replay }
    videoOffsetTimeMsec := live }

/-- A renderer with author name `"user"`, the given message body, no channel
id and no photo. -/
def mkRenderer (body : Option MessageBody) : LiveChatTextMessageRenderer :=
  { authorName := some ⟨some "user"⟩, message := body,
    authorExternalChannelId := none, authorPhoto := none }

/-- A fully well-formed raw record: add-chat-item action with a text-message
renderer, author name, message body, and a live offset of 500 ms. -/
def recAccepted : RawRecord :=
  mkTextRecord (mkRenderer (some ⟨some []⟩)) (some (.num 500)) none

/-- The normalized message `recAccepted` yields. -/
def msgAccepted : ChatMessage :=
  { author := some "user", avatar := none, text := some [], time := (500 : ℚ) / 1000 }

/-- A raw record that passes every structural guard of the normalizer (text
renderer, author name, truthy offset) but whose renderer has no `message`
field, so `liveChatMessage.message.runs` throws a `TypeError`. -/
def recNoBody : RawRecord :=
  mkTextRecord (mkRenderer none) (some (.str "1000")) none

/-- An otherwise fully well-formed raw record whose millisecond offset is the
number `0` in the live location and absent in the replay location. -/
def recZeroOffset : RawRecord :=
  mkTextRecord (mkRenderer (some ⟨some []⟩)) (some (.num 0)) none

/-! ## Theorems -/

/-- `jsTruthy` is false exactly on the falsy field values the guard treats as
unusable: an absent field, the number `0`, or the empty string. -/
theorem jsTruthy_eq_false_of (v : Option JVal)
    (h : v = none ∨ v = some (.num 0) ∨ v = some (.str "")) :
    jsTruthy v = false := by
  rcases h with h | h | h <;> subst h <;> simp [jsTruthy]

/-- Characterization of one normalizer iteration: a record failing the
acceptance conditions is silently skipped; an accepted record either throws
(no message body) or yields exactly its spec-side message. -/
theorem parseOne_char (toNum : String → ℚ)
    (avatarOf : LiveChatTextMessageRenderer → Option CImage)
    (skipAvatars : Bool) (r : RawRecord) :
    parseOne toNum avatarOf skipAvatars r =
      if specAccepts r then
        match (recordRenderer? r).bind (·.message) with
        | none => .error ()
        | some _ => .ok (specMessage toNum avatarOf skipAvatars r)
      else .ok none := by
  obtain ⟨rca, live⟩ := r
  obtain _ | ⟨acts, rtime⟩ := rca
  · rfl
  obtain _ | l := acts
  · rfl
  obtain _ | ⟨oca, rest⟩ := l
  · rfl
  obtain _ | ca := oca
  · rfl
  obtain ⟨aca⟩ := ca
  obtain _ | aca0 := aca
  · rfl
  obtain ⟨item⟩ := aca0
  obtain _ | item0 := item
  · rfl
  obtain ⟨lcm⟩ := item0
  obtain _ | lcm0 := lcm
  · rfl
  obtain ⟨an, msgb, chid, photo⟩ := lcm0
  obtain _ | an0 := an
  · rfl
  by_cases hl : jsTruthy live = true
  · obtain _ | v := live
    · simp [jsTruthy] at hl
    obtain _ | body := msgb <;>
      simp [parseOne, specAccepts, specMessage, recordRenderer?, specOffset?, hl]
  · rw [Bool.not_eq_true] at hl
    obtain _ | v := rtime
    · simp [parseOne, specAccepts, specMessage, recordRenderer?, specOffset?, hl,
        show jsTruthy none = false from rfl]
    by_cases hv : jsTruthy (some v) = true
    · obtain _ | body := msgb <;>
        simp [parseOne, specAccepts, specMessage, recordRenderer?, specOffset?, hl, hv]
    · rw [Bool.not_eq_true] at hv
      simp [parseOne, specAccepts, specMessage, recordRenderer?, specOffset?, hl, hv]

/-- A rejected record contributes no spec-side message. -/
theorem specMessage_eq_none (toNum : String → ℚ)
    (avatarOf : LiveChatTextMessageRenderer → Option CImage) (skipAvatars : Bool)
    (r : RawRecord) (h : specAccepts r = false) :
    specMessage toNum avatarOf skipAvatars r = none := by
  unfold specAccepts at h
  cases hR : recordRenderer? r with
  | none => simp [specMessage, hR]
  | some lcm =>
    rw [hR] at h
    cases hA : lcm.authorName with
    | none => simp [specMessage, hR, hA]
    | some an =>
      simp [hA] at h
      cases hO : specOffset? r with
      | none => simp [specMessage, hR, hA, hO]
      | some v =>
        rw [hO] at h
        simp [specMessage, hR, hA, hO, h]

/-- When one normalizer iteration returns, its value is the spec-side
message of the record. -/
theorem parseOne_ok_eq (toNum : String → ℚ)
    (avatarOf : LiveChatTextMessageRenderer → Option CImage) (skipAvatars : Bool)
    (r : RawRecord) (o : Option ChatMessage)
    (h : parseOne toNum avatarOf skipAvatars r = .ok o) :
    o = specMessage toNum avatarOf skipAvatars r := by
  rw [parseOne_char] at h
  by_cases ha : specAccepts r
  · rw [if_pos ha] at h
    cases hm : (recordRenderer? r).bind (·.message) with
    | none => rw [hm] at h; cases h
    | some b => rw [hm] at h; exact (Except.ok.inj h).symm
  · rw [if_neg ha] at h
    rw [← Except.ok.inj h]
    exact (specMessage_eq_none toNum avatarOf skipAvatars r
      (Bool.not_eq_true _ ▸ ha)).symm

/-- **C3.** The normalizer excludes every raw record missing an author display
name, missing a usable time offset (live and replay locations), or not an
add-chat-item action carrying a text-message renderer; and whenever it
returns, its output is exactly one `ChatMessage` per accepted record, in
input order, with `timestampSeconds = offsetMs / 1000` (live offset
preferred, replay-action-level offset as fallback) — i.e. the record loop
refines the spec-side `filterMap` of `specMessage`. -/
theorem parseMessages_normalizer_correct (toNum : String → ℚ)
    (avatarOf : LiveChatTextMessageRenderer → Option CImage)
    (skipAvatars : Bool) :
    (∀ r, specAccepts r = false →
      parseOne toNum avatarOf skipAvatars r = .ok none) ∧
    (∀ rs out, parseLoop toNum avatarOf skipAvatars rs = .ok out →
      out = rs.filterMap (specMessage toNum avatarOf skipAvatars)) := by
  constructor
  · intro r h
    rw [parseOne_char]
    simp [h]
  · intro rs
    induction rs with
    | nil =>
      intro out h
      simp only [parseLoop] at h
      simp [← Except.ok.inj h]
    | cons r rs ih =>
      intro out h
      simp only [parseLoop] at h
      cases ho : parseOne toNum avatarOf skipAvatars r with
      | error e => rw [ho] at h; cases h
      | ok o =>
        rw [ho] at h
        have hspec := parseOne_ok_eq toNum avatarOf skipAvatars r o ho
        cases o with
        | none =>
          rw [ih out h, List.filterMap_cons, ← hspec]
        | some c =>
          cases hrec : parseLoop toNum avatarOf skipAvatars rs with
          | error e => rw [hrec] at h; cases h
          | ok l =>
            rw [hrec] at h
            simp only [Except.map] at h
            rw [← Except.ok.inj h, ih l hrec, List.filterMap_cons, ← hspec]

/-- **C3 witness.** A concrete well-formed record is normalized to exactly
its spec-side message. -/
theorem parseMessages_normalizer_correct_witness :
    parseLoop toNumZero avatarNone true [recAccepted] = .ok [msgAccepted] ∧
    [msgAccepted] = [recAccepted].filterMap (specMessage toNumZero avatarNone true) := by
  have h : parseLoop toNumZero avatarNone true [recAccepted] = .ok [msgAccepted] := by
    norm_num [parseLoop, parseOne, recAccepted, mkTextRecord, mkRenderer, msgAccepted,
      toNumZero, jsTruthy, jsNumber, Except.map]
  exact ⟨h, (parseMessages_normalizer_correct toNumZero avatarNone true).2
    [recAccepted] [msgAccepted] h⟩

/-- **C4 (amended).** Whenever the normalizer's record loop returns, its
output is no longer than its input and consists of each record's own parse
result in input order; and every failure of one of the checked structural
guards results in a silent skip, never an exception. (The claim's stronger
"never throws for a single bad record" is refuted by `recNoBody`: a record
passing all guards but lacking a message body throws.) -/
theorem parseLoop_safety (toNum : String → ℚ)
    (avatarOf : LiveChatTextMessageRenderer → Option CImage)
    (skipAvatars : Bool) :
    (∀ rs out, parseLoop toNum avatarOf skipAvatars rs = .ok out →
      out.length ≤ rs.length ∧
      out = rs.filterMap
        (fun r => (parseOne toNum avatarOf skipAvatars r).toOption.join)) ∧
    (∀ r, specAccepts r = false →
      parseOne toNum avatarOf skipAvatars r = .ok none) := by
  constructor
  · intro rs
    induction rs with
    | nil =>
      intro out h
      simp only [parseLoop] at h
      simp [← Except.ok.inj h]
    | cons r rs ih =>
      intro out h
      simp only [parseLoop] at h
      cases ho : parseOne toNum avatarOf skipAvatars r with
      | error e => rw [ho] at h; cases h
      | ok o =>
        rw [ho] at h
        cases o with
        | none =>
          obtain ⟨h1, h2⟩ := ih out h
          refine ⟨h1.trans (Nat.le_succ _), ?_⟩
          rw [h2, List.filterMap_cons, ho]
          rfl
        | some c =>
          cases hrec : parseLoop toNum avatarOf skipAvatars rs with
          | error e => rw [hrec] at h; cases h
          | ok l =>
            rw [hrec] at h
            simp only [Except.map] at h
            obtain ⟨h1, h2⟩ := ih l hrec
            rw [← Except.ok.inj h]
            refine ⟨by simpa using Nat.succ_le_succ h1, ?_⟩
            rw [List.filterMap_cons, ho, h2]
            rfl
  · intro r h
    rw [parseOne_char]
    simp [h]

/-- **C4 witness.** The safety bounds hold on a concrete one-record input. -/
theorem parseLoop_safety_witness :
    parseLoop toNumZero avatarNone true [recAccepted] = .ok [msgAccepted] ∧
    [msgAccepted].length ≤ [recAccepted].length ∧
    [msgAccepted] = [recAccepted].filterMap
      (fun r => (parseOne toNumZero avatarNone true r).toOption.join) := by
  have h : parseLoop toNumZero avatarNone true [recAccepted] = .ok [msgAccepted] := by
    norm_num [parseLoop, parseOne, recAccepted, mkTextRecord, mkRenderer, msgAccepted,
      toNumZero, jsTruthy, jsNumber, Except.map]
  exact ⟨h, (parseLoop_safety toNumZero avatarNone true).1 [recAccepted] [msgAccepted] h⟩

/-- **C4 counterexample.** The normalizer throws (a `TypeError` escapes) on a
single bad record: `recNoBody` passes every structural guard but has no
message body, so `liveChatMessage.message.runs` throws — refuting "never
throws for a single bad record". -/
theorem parseMessages_throws_cex :
    parseMessages toNumZero avatarNone loadFail true [recNoBody] ⟨[], []⟩ =
      .error () := rfl

/-- **C10.** A raw record whose millisecond offset field is falsy (absent,
the number `0`, or the empty string) in both the live location and the
replay-action-level location is excluded from the normalized output — even a
record that is otherwise fully well-formed. -/
theorem zero_offset_record_dropped (toNum : String → ℚ)
    (avatarOf : LiveChatTextMessageRenderer → Option CImage)
    (skipAvatars : Bool) (r : RawRecord)
    (hlive : r.videoOffsetTimeMsec = none ∨
      r.videoOffsetTimeMsec = some (.num 0) ∨
      r.videoOffsetTimeMsec = some (.str ""))
    (hreplay : ∀ rca, r.replayChatItemAction = some rca →
      rca.videoOffsetTimeMsec = none ∨
      rca.videoOffsetTimeMsec = some (.num 0) ∨
      rca.videoOffsetTimeMsec = some (.str "")) :
    parseOne toNum avatarOf skipAvatars r = .ok none := by
  have hoff : jsTruthy (specOffset? r) = false := by
    unfold specOffset?
    rw [jsTruthy_eq_false_of _ hlive]
    simp only [Bool.false_eq_true, if_false]
    cases hrca : r.replayChatItemAction with
    | none => rfl
    | some rca => exact jsTruthy_eq_false_of _ (hreplay rca hrca)
  have hacc : specAccepts r = false := by
    unfold specAccepts
    rw [hoff]
    simp
  rw [parseOne_char]
  simp [hacc]

/-- **C10 witness.** A fully well-formed record timestamped at exactly 0 ms
(numeric offset `0`, no replay fallback) is dropped. -/
theorem zero_offset_record_dropped_witness :
    (recZeroOffset.videoOffsetTimeMsec = none ∨
      recZeroOffset.videoOffsetTimeMsec = some (.num 0) ∨
      recZeroOffset.videoOffsetTimeMsec = some (.str "")) ∧
    parseOne toNumZero avatarNone true recZeroOffset = .ok none := by
  have h1 : recZeroOffset.videoOffsetTimeMsec = some (.num 0) := rfl
  refine ⟨Or.inr (Or.inl h1), zero_offset_record_dropped _ _ _ _
    (Or.inr (Or.inl h1)) ?_⟩
  intro rca h
  simp only [recZeroOffset, mkTextRecord, Option.some.injEq] at h
  rw [← h]
  exact Or.inl rfl

/-- Running zero frames changes nothing. -/
theorem runFrames_zero (times : List ℚ) (timeFrom frameRate : ℚ) (s : FrameState) :
    runFrames times timeFrom frameRate 0 s = (s, []) := rfl

/-- Unfolding one more frame of the loop. -/
theorem runFrames_succ (times : List ℚ) (timeFrom frameRate : ℚ) (n : ℕ)
    (s : FrameState) :
    runFrames times timeFrom frameRate (n + 1) s =
      ((frameStep times timeFrom frameRate
          (runFrames times timeFrom frameRate n s).1 n).1,
       (runFrames times timeFrom frameRate n s).2 ++
         [(frameStep times timeFrom frameRate
            (runFrames times timeFrom frameRate n s).1 n).2]) := by
  unfold runFrames
  rw [List.range_succ, List.foldl_append]
  simp only [List.foldl_cons, List.foldl_nil]

/-- A single frame tick never decreases the revealed index. -/
theorem frameStep_idx_le (times : List ℚ) (timeFrom frameRate : ℚ)
    (s : FrameState) (i : ℕ) :
    s.idx ≤ (frameStep times timeFrom frameRate s i).1.idx := by
  unfold frameStep
  cases h : times[s.idx]? with
  | none => simp
  | some t => by_cases ht : t ≤ s.currentTime <;> simp [ht]

/-- A single frame tick advances the revealed index by at most one. -/
theorem frameStep_idx_le_succ (times : List ℚ) (timeFrom frameRate : ℚ)
    (s : FrameState) (i : ℕ) :
    (frameStep times timeFrom frameRate s i).1.idx ≤ s.idx + 1 := by
  unfold frameStep
  cases h : times[s.idx]? with
  | none => simp
  | some t => by_cases ht : t ≤ s.currentTime <;> simp [ht]

/-- **C7.** Over any run of the frame loop, the revealed-message index is
monotonically non-decreasing: after more frames the index is never smaller,
so a revealed message is never un-revealed. -/
theorem revealed_index_monotone (times : List ℚ) (timeFrom frameRate : ℚ)
    (s : FrameState) (n m : ℕ) (h : n ≤ m) :
    (runFrames times timeFrom frameRate n s).1.idx ≤
      (runFrames times timeFrom frameRate m s).1.idx := by
  induction m with
  | zero =>
    rw [Nat.le_zero] at h
    subst h
    exact le_refl _
  | succ m ih =>
    by_cases hm : n = m + 1
    · subst hm; exact le_refl _
    · have hnm : n ≤ m := Nat.lt_succ_iff.mp (Nat.lt_of_le_of_ne h hm)
      rw [runFrames_succ]
      exact le_trans (ih hnm) (frameStep_idx_le _ _ _ _ _)

/-- **C7 witness.** The monotonicity instantiated on a concrete run. -/
theorem revealed_index_monotone_witness :
    1 ≤ 2 ∧
    (runFrames [(1:ℚ)/2] 0 8 1 ⟨0, 0, none⟩).1.idx ≤
      (runFrames [(1:ℚ)/2] 0 8 2 ⟨0, 0, none⟩).1.idx :=
  ⟨by decide, revealed_index_monotone [(1:ℚ)/2] 0 8 ⟨0, 0, none⟩ 1 2 (by decide)⟩

/-- **C1 (amended).** The reveal check of the frame loop is a single
conditional, not a loop: each frame tick advances the revealed index by at
most one, so after `n` frames the index has grown by at most `n`; several
messages whose timestamps fall inside one frame interval are revealed on
consecutive subsequent frames, not all within that frame tick. -/
theorem reveal_at_most_one_per_tick (times : List ℚ) (timeFrom frameRate : ℚ)
    (s : FrameState) (n : ℕ) :
    (runFrames times timeFrom frameRate n s).1.idx ≤ s.idx + n := by
  induction n with
  | zero => simp [runFrames]
  | succ n ih =>
    rw [runFrames_succ]
    exact le_trans (frameStep_idx_le_succ _ _ _ _ _)
      (by omega)

/-- **C1 counterexample.** Two messages (0.1 s and 0.2 s) both precede the
frame-0 simulated time of a run starting at 1 s, yet after the frame-0 tick
the revealed index is 1 — not 2 as the claim's "all of those messages become
revealed within that single frame tick" demands. -/
theorem reveal_single_per_tick_cex :
    (1:ℚ)/10 ≤ 1 ∧ (1:ℚ)/5 ≤ 1 ∧
    ((runFrames [(1:ℚ)/10, (1:ℚ)/5] 1 1 1 ⟨0, 1, none⟩).2.map
      (fun o => o.checkTime)) = [1] ∧
    (runFrames [(1:ℚ)/10, (1:ℚ)/5] 1 1 1 ⟨0, 1, none⟩).1.idx = 1 ∧
    ¬ (runFrames [(1:ℚ)/10, (1:ℚ)/5] 1 1 1 ⟨0, 1, none⟩).1.idx = 2 := by
  refine ⟨by norm_num, by norm_num, ?_, ?_, ?_⟩ <;>
    norm_num [runFrames, frameStep, List.range_succ]

/-- After `n` frames the loop's `currentTime` holds
`timeFrom + (n-1)/frameRate` (its initial value while no frame has run):
the update happens at the end of each iteration, one frame late. -/
theorem runFrames_currentTime (times : List ℚ) (timeFrom frameRate : ℚ)
    (s : FrameState) (n : ℕ) :
    (runFrames times timeFrom frameRate n s).1.currentTime =
      if n = 0 then s.currentTime
      else timeFrom + ((n : ℚ) - 1) / frameRate := by
  induction n with
  | zero => simp [runFrames]
  | succ n ih =>
    rw [runFrames_succ]
    simp only [frameStep, Nat.succ_ne_zero, if_false]
    push_cast
    ring_nf

/-- The loop emits exactly one output per frame. -/
theorem runFrames_length (times : List ℚ) (timeFrom frameRate : ℚ)
    (s : FrameState) (n : ℕ) :
    (runFrames times timeFrom frameRate n s).2.length = n := by
  induction n with
  | zero => simp [runFrames]
  | succ n ih => rw [runFrames_succ]; simp [ih]

/-- **C2 (amended).** The simulated time frame `i`'s reveal check compares
against is the loop's initial `currentTime` for frame 0 and
`timeFrom + (i-1)/frameRate` for `i ≥ 1` — one frame later than the claimed
`fromTime + i/frameRate`, because `currentTime` is assigned at the end of the
iteration. Consequently, in the claimed scenario (one message at 0.5 s,
`from = 0`, `to = 2`, `frameRate = 8`, so 32 frames) frames 0 through 4 show
zero messages and frames 5 through 31 show exactly one. -/
theorem frame_check_time (times : List ℚ) (timeFrom frameRate : ℚ)
    (s : FrameState) (n i : ℕ) (hi : i < n) :
    ((runFrames times timeFrom frameRate n s).2.map (fun o => o.checkTime))[i]? =
      some (if i = 0 then s.currentTime
            else timeFrom + ((i : ℚ) - 1) / frameRate) ∧
    ((runFrames [(1:ℚ)/2] 0 8 32
        ⟨(findMessageIndexAtTime [(1:ℚ)/2] 0).toNat, 0, none⟩).2.map
      (fun o => shownCount 16 1 o.canvas)) =
      List.replicate 5 0 ++ List.replicate 27 1 := by
  constructor
  · induction n with
    | zero => exact absurd hi (Nat.not_lt_zero i)
    | succ n ih =>
      rw [runFrames_succ]
      by_cases hin : i < n
      · rw [List.map_append, List.getElem?_append,
          if_pos (by simpa [runFrames_length] using hin)]
        exact ih hin
      · have hieq : i = n := by omega
        subst hieq
        rw [List.map_append, List.getElem?_append,
          if_neg (by simp [runFrames_length])]
        simp only [List.length_map, runFrames_length, Nat.sub_self,
          List.map_cons, List.map_nil, List.getElem?_cons_zero]
        have hct : (frameStep times timeFrom frameRate
            (runFrames times timeFrom frameRate i s).1 i).2.checkTime =
            (runFrames times timeFrom frameRate i s).1.currentTime := rfl
        rw [hct, runFrames_currentTime]
  · norm_num [runFrames, frameStep, findMessageIndexAtTime, List.findIdx?,
      shownCount, List.range_succ]
    decide

/-- **C2 witness.** The check-time formula instantiated at frame 2 of a
3-frame run with `frameRate = 1`, `timeFrom = 0`: the check compares against
`0 + (2-1)/1 = 1`. -/
theorem frame_check_time_witness :
    (2:ℕ) < 3 ∧
    ((runFrames ([]:List ℚ) 0 1 3 ⟨0, 0, none⟩).2.map
      (fun o => o.checkTime))[2]? =
      some (if (2:ℕ) = 0 then (⟨0, 0, none⟩ : FrameState).currentTime
            else 0 + (((2:ℕ):ℚ) - 1) / 1) :=
  ⟨by decide, (frame_check_time ([]:List ℚ) 0 1 ⟨0, 0, none⟩ 3 2 (by decide)).1⟩

/-- **C2 counterexample.** In the claim's scenario (single message at 0.5 s,
`from = 0`, `to = 2`, `frameRate = 8`), the per-frame shown-message counts
are not `frames 0..3 zero, 4 onward one`: frame 4 still shows zero
messages. -/
theorem frame_scenario_cex :
    ¬ (((runFrames [(1:ℚ)/2] 0 8 32
          ⟨(findMessageIndexAtTime [(1:ℚ)/2] 0).toNat, 0, none⟩).2.map
        (fun o => shownCount 16 1 o.canvas)) =
      List.replicate 4 0 ++ List.replicate 28 1) := by
  norm_num [runFrames, frameStep, findMessageIndexAtTime, List.findIdx?,
    shownCount, List.range_succ]
  decide

/-- **C8.** The total number of frames equals
`floor(frameRate * (toTime - fromTime + 2.0))` with the padding fixed at
2 seconds; in particular `frameRate = 8, from = 0, to = 60` yields 496. -/
theorem totalFrames_formula (frameRate timeFrom timeTo : ℚ)
    (h : 0 < videoDuration timeFrom timeTo) :
    totalFrames frameRate timeFrom timeTo =
      ⌊frameRate * (timeTo - timeFrom + 2)⌋ ∧
    totalFrames 8 0 60 = 496 := by
  refine ⟨rfl, ?_⟩
  norm_num [totalFrames, videoDuration]

/-- **C8 witness.** The frame-count formula at the claim's example. -/
theorem totalFrames_formula_witness :
    0 < videoDuration 0 60 ∧ totalFrames 8 0 60 = 496 :=
  ⟨by norm_num [videoDuration],
   (totalFrames_formula 8 0 60 (by norm_num [videoDuration])).2⟩

/-- **C9.** An empty normalized message list aborts the run with a reported
error before any frame is produced; a non-positive padded duration aborts
with a reported error before canvas creation and encoder setup. -/
theorem runMain_aborts (times : List ℚ) (timeFrom timeTo frameRate : ℚ) :
    (times = [] →
      runMain times timeFrom timeTo frameRate =
        [.reportError "Failed to read messages"] ∧
      ∀ c, MainEvent.emitFrame c ∉ runMain times timeFrom timeTo frameRate) ∧
    (times ≠ [] → videoDuration timeFrom timeTo ≤ 0 →
      runMain times timeFrom timeTo frameRate =
        [.reportError "Invalid video duration"] ∧
      MainEvent.createCanvas ∉ runMain times timeFrom timeTo frameRate ∧
      MainEvent.setupEncoder ∉ runMain times timeFrom timeTo frameRate) := by
  constructor
  · rintro rfl
    have h1 : runMain ([]:List ℚ) timeFrom timeTo frameRate =
        [.reportError "Failed to read messages"] := by
      simp [runMain]
    refine ⟨h1, fun c => ?_⟩
    rw [h1]
    simp
  · intro hne hdur
    have hlen : ¬ times.length = 0 := by
      simpa [List.length_eq_zero] using hne
    have h1 : runMain times timeFrom timeTo frameRate =
        [.reportError "Invalid video duration"] := by
      simp [runMain, hlen, hdur]
    refine ⟨h1, ?_, ?_⟩ <;> rw [h1] <;> simp

/-- **C9 witness.** The empty-input abort at a concrete configuration. -/
theorem runMain_aborts_witness :
    (([]:List ℚ) = []) ∧
    runMain ([]:List ℚ) 0 0 1 = [.reportError "Failed to read messages"] :=
  ⟨rfl, ((runMain_aborts [] 0 0 1).1 rfl).1⟩

/-- One `preloadEmoji` step either leaves the state unchanged, or (on a cache
miss with an available thumbnail) logs one loader invocation and, when the
load succeeds, caches the image; a failed load logs without caching. -/
theorem preloadEmoji_cases (load : String → Option CImage) (st : CacheState)
    (e : Emoji) :
    (preloadEmoji load st e).1 = st ∨
    (∃ i, (st.cache.lookup e.emojiId).isSome = false ∧
      (preloadEmoji load st e).1 =
        ⟨st.cache ++ [(e.emojiId, i)], st.log ++ [e.emojiId]⟩) ∨
    ((∃ u, load u = none) ∧ (st.cache.lookup e.emojiId).isSome = false ∧
      (preloadEmoji load st e).1 = ⟨st.cache, st.log ++ [e.emojiId]⟩) := by
  obtain ⟨eid, eimg⟩ := e
  unfold preloadEmoji
  by_cases hhit : (st.cache.lookup eid).isSome = true
  · left; simp [hhit]
  · rw [if_neg hhit]
    rw [Bool.not_eq_true] at hhit
    cases eimg with
    | none => left; rfl
    | some img =>
      obtain ⟨ths, lab⟩ := img
      cases ths with
      | none => left; rfl
      | some ts =>
        cases ts with
        | nil => left; rfl
        | cons t rest =>
          cases hld : load t.url with
          | some i => right; left; exact ⟨i, hhit, by simp [hld]⟩
          | none => right; right; exact ⟨⟨t.url, hld⟩, hhit, by simp [hld]⟩

/-- With an always-succeeding loader, one `preloadEmoji` step never increases
an id's `cacheMeasure`. -/
theorem preloadEmoji_measure (load : String → Option CImage)
    (hload : ∀ u, (load u).isSome) (id : String) (st : CacheState) (e : Emoji) :
    cacheMeasure id (preloadEmoji load st e).1 ≤ cacheMeasure id st := by
  rcases preloadEmoji_cases load st e with h | ⟨i, hmiss, h⟩ | ⟨⟨u, hu⟩, _, _⟩
  · rw [h]
  · rw [h]
    unfold cacheMeasure
    by_cases hid : e.emojiId = id
    · subst hid
      have hnone : st.cache.lookup e.emojiId = none := by
        cases hcl : st.cache.lookup e.emojiId with
        | none => rfl
        | some v => rw [hcl] at hmiss; cases hmiss
      rw [List.count_append, List.lookup_append, hnone]
      simp [hmiss]
    · have hbe1 : (id == e.emojiId) = false := by
        simp only [beq_eq_false_iff_ne, ne_eq]
        exact fun hc => hid hc.symm
      have hbe2 : (e.emojiId == id) = false := by
        simp only [beq_eq_false_iff_ne, ne_eq]
        exact hid
      have h1 : List.count id [e.emojiId] = 0 := by
        rw [List.count_singleton, hbe2]
        rfl
      have h2 : ([(e.emojiId, i)].lookup id) = none := by
        simp [List.lookup, hbe1]
      rw [List.count_append, List.lookup_append, h1, h2]
      cases List.lookup id st.cache <;> simp
  · have hsome := hload u
    rw [hu] at hsome
    cases hsome

/-- The per-span emoji-preload fold never increases an id's `cacheMeasure`
when every load succeeds. -/
theorem preloadRuns_measure (load : String → Option CImage)
    (hload : ∀ u, (load u).isSome) (id : String) :
    ∀ (runs : List Run) (st : CacheState),
      cacheMeasure id (preloadRuns load runs st) ≤ cacheMeasure id st := by
  intro runs
  induction runs with
  | nil => intro st; exact le_refl _
  | cons r rs ih =>
    intro st
    obtain ⟨rt, remo⟩ := r
    cases remo with
    | none => exact ih st
    | some e =>
      exact le_trans (ih _) (preloadEmoji_measure load hload id st e)

/-- The whole emoji-preload phase never increases an id's `cacheMeasure`
when every load succeeds. -/
theorem preloadAll_measure (load : String → Option CImage)
    (hload : ∀ u, (load u).isSome) (id : String) :
    ∀ (msgs : List ChatMessage) (st st' : CacheState),
      preloadAll load msgs st = .ok st' →
      cacheMeasure id st' ≤ cacheMeasure id st := by
  intro msgs
  induction msgs with
  | nil =>
    intro st st' h
    simp only [preloadAll] at h
    rw [← Except.ok.inj h]
  | cons m ms ih =>
    intro st st' h
    simp only [preloadAll] at h
    cases hmt : m.text with
    | none => rw [hmt] at h; cases h
    | some runs =>
      rw [hmt] at h
      exact le_trans (ih _ _ h) (preloadRuns_measure load hload id runs st)

/-- **C6 (amended).** The emoji cache guarantees: a cache hit returns the
stored image without invoking the loader; a miss with an available thumbnail
URL invokes the loader (logging the id); and — provided loads succeed — the
loader is invoked at most once per emoji id across the whole preload run,
from any starting cache state. (The unconditional at-most-once of the claim
fails: a failed load caches nothing, so a later span with the same id
re-invokes the loader.) -/
theorem emoji_cache_single_fetch (load : String → Option CImage) :
    (∀ st e, (st.cache.lookup e.emojiId).isSome = true →
      preloadEmoji load st e = (st, true)) ∧
    (∀ st e img t rest, (st.cache.lookup e.emojiId).isSome = false →
      e.image = some img → img.thumbnails = some (t :: rest) →
      (preloadEmoji load st e).1.log = st.log ++ [e.emojiId]) ∧
    ((∀ u, (load u).isSome) →
      ∀ msgs st st' id, preloadAll load msgs st = .ok st' →
        st'.log.count id ≤ st.log.count id + 1) := by
  refine ⟨?_, ?_, ?_⟩
  · intro st e hhit
    unfold preloadEmoji
    rw [if_pos hhit]
  · intro st e img t rest hmiss himg hth
    obtain ⟨eid, eimg⟩ := e
    simp only at himg
    subst himg
    obtain ⟨ths, lab⟩ := img
    simp only at hth
    subst hth
    unfold preloadEmoji
    rw [if_neg (by rw [hmiss]; exact Bool.false_ne_true)]
    cases hld : load t.url <;> simp [hld]
  · intro hload msgs st st' id h
    have hm := preloadAll_measure load hload id msgs st st' h
    unfold cacheMeasure at hm
    by_cases h1 : (st'.cache.lookup id).isSome = true <;>
      by_cases h2 : (st.cache.lookup id).isSome = true <;>
      simp [h1, h2] at hm <;> omega

/-- **C6 witness.** With a succeeding loader and a message whose content
references emoji id `"x"` twice, the preload run fetches once, caches the
image, and the log holds a single invocation. -/
theorem emoji_cache_single_fetch_witness :
    (∀ u, (loadOk u).isSome) ∧
    preloadAll loadOk [msgEmojiTwice] ⟨[], []⟩ =
      .ok ⟨[("x", ⟨"img"⟩)], ["x"]⟩ ∧
    (⟨[("x", ⟨"img"⟩)], ["x"]⟩ : CacheState).log.count "x" ≤
      (⟨[], []⟩ : CacheState).log.count "x" + 1 := by
  refine ⟨fun u => rfl, rfl, ?_⟩
  exact (emoji_cache_single_fetch loadOk).2.2 (fun u => rfl)
    [msgEmojiTwice] ⟨[], []⟩ ⟨[("x", ⟨"img"⟩)], ["x"]⟩ "x" rfl

/-- **C6 counterexample.** With a failing loader, two spans referencing the
same emoji id invoke the loader twice across the run: the failure caches
nothing and the second span retries — refuting the unconditional
"at most once". -/
theorem emoji_cache_single_fetch_cex :
    preloadAll loadFail [msgEmojiTwice] ⟨[], []⟩ = .ok ⟨[], ["x", "x"]⟩ ∧
    (⟨[], ["x", "x"]⟩ : CacheState).log.count "x" = 2 := by
  exact ⟨rfl, by decide⟩

/-- Unfolding the extent of a placed text run. -/
theorem itemExtent_textRun (wW : String → ℚ) (a : ℚ) (ws : List String) :
    itemExtent wW (.textRun a ws) = a + (ws.map wW).sum := rfl

/-- Unfolding the extent of a placed emoji glyph. -/
theorem itemExtent_emojiGlyph (wW : String → ℚ) (a : ℚ) (e : Emoji) :
    itemExtent wW (.emojiGlyph a e) = a + EMOJI_SIZE := rfl

/-- Appending one item to a line preserves the per-item property when the new
item itself satisfies it (relative to the old line). -/
theorem lineOKS_append (wW : String → ℚ) (maxW : ℚ) (L : List PlacedItem)
    (p : PlacedItem) (hL : lineOKS wW maxW L)
    (hp : itemExtent wW p ≤ maxW ∨ overflowToken wW maxW p ∨
      (itemWidth wW p = 0 ∧ ∃ q ∈ L, overflowToken wW maxW q)) :
    lineOKS wW maxW (L ++ [p]) := by
  intro r hr
  rcases List.mem_append.mp hr with h | h
  · rcases hL r h with h1 | h2 | ⟨h3, q, hq, hq2⟩
    · exact Or.inl h1
    · exact Or.inr (Or.inl h2)
    · exact Or.inr (Or.inr ⟨h3, q, List.mem_append_left _ hq, hq2⟩)
  · have hrp : r = p := by simpa using h
    subst hrp
    rcases hp with h1 | h2 | ⟨h3, q, hq, hq2⟩
    · exact Or.inl h1
    · exact Or.inr (Or.inl h2)
    · exact Or.inr (Or.inr ⟨h3, q, List.mem_append_left _ hq, hq2⟩)

/-- The strengthened per-item property implies the claim's per-line
property. -/
theorem lineOKS_lineOK (wW : String → ℚ) (maxW : ℚ) (L : List PlacedItem)
    (h : lineOKS wW maxW L) : lineOK wW maxW L := by
  by_cases hall : ∀ p ∈ L, itemExtent wW p ≤ maxW
  · exact Or.inl hall
  · push_neg at hall
    obtain ⟨p, hp, hlt⟩ := hall
    rcases h p hp with h1 | h2 | ⟨_, q, hq, hq2⟩
    · exact absurd h1 (not_le.mpr hlt)
    · exact Or.inr ⟨p, hp, h2⟩
    · exact Or.inr ⟨q, hq, hq2⟩

/-- One word-loop step preserves the word-loop invariant. -/
theorem wordStep_inv (authorX maxW : ℚ) (wW : String → ℚ)
    (s : WrapSt × ℚ × List String) (w : String) (h : wordInv wW maxW s) :
    wordInv wW maxW (wordStep authorX maxW wW s w) := by
  obtain ⟨st, textX, acc⟩ := s
  obtain ⟨hdone, hcur, hx, hd⟩ := h
  simp only [wordInv] at hx hd ⊢
  unfold wordStep
  by_cases hw : maxW < st.x + wW w
  · rw [if_pos hw]
    have hext : itemExtent wW (PlacedItem.textRun textX acc) = st.x := by
      rw [hx]; rfl
    refine ⟨?_, ?_, ?_, ?_⟩
    · intro L hL
      rcases List.mem_append.mp hL with hmem | hmem
      · exact hdone L hmem
      · have hLeq : L = st.cur ++ [PlacedItem.textRun textX acc] := by
          simpa using hmem
        subst hLeq
        refine lineOKS_append wW maxW _ _ hcur ?_
        by_cases hxm : st.x ≤ maxW
        · exact Or.inl (hext ▸ hxm)
        · rcases hd with hd1 | ⟨hacc, q, hq, hqo, hqe⟩ | ⟨w', hacc⟩
          · exact absurd hd1 hxm
          · subst hacc
            exact Or.inr (Or.inr ⟨by simp [itemWidth], q, hq, hqo⟩)
          · subst hacc
            exact Or.inr (Or.inl ⟨hext ▸ not_le.mp hxm, rfl⟩)
    · intro p hp
      exact absurd hp (List.not_mem_nil p)
    · simp
    · exact Or.inr (Or.inr ⟨w, rfl⟩)
  · rw [if_neg hw]
    refine ⟨hdone, hcur, ?_, Or.inl (le_of_not_lt hw)⟩
    rw [hx]
    simp [List.map_append]
    ring

/-- The whole word loop preserves the word-loop invariant. -/
theorem foldl_wordStep_inv (authorX maxW : ℚ) (wW : String → ℚ)
    (words : List String) :
    ∀ s, wordInv wW maxW s →
      wordInv wW maxW (words.foldl (wordStep authorX maxW wW) s) := by
  induction words with
  | nil => intro s h; exact h
  | cons w ws ih =>
    intro s h
    exact ih _ (wordStep_inv authorX maxW wW s w h)

/-- The text-span branch preserves the between-spans invariant. -/
theorem textSpanStep_inv (authorX maxW : ℚ) (wW : String → ℚ) (st : WrapSt)
    (t : String) (h : wrapInv wW maxW st) :
    wrapInv wW maxW (textSpanStep authorX maxW wW st t) := by
  obtain ⟨hdone, hcur, hda⟩ := h
  have hstart : wordInv wW maxW (st, st.x, []) := by
    refine ⟨hdone, hcur, by simp, ?_⟩
    rcases hda with h1 | ⟨q, hq, hqo, hqe⟩
    · exact Or.inl h1
    · exact Or.inr (Or.inl ⟨rfl, q, hq, hqo, hqe⟩)
  have hend := foldl_wordStep_inv authorX maxW wW (jsSplitSpace t) _ hstart
  unfold textSpanStep
  obtain ⟨hdone', hcur', hx', hd'⟩ := hend
  by_cases hemp : ((jsSplitSpace t).foldl (wordStep authorX maxW wW)
      (st, st.x, [])).2.2.isEmpty
  · rw [if_pos hemp]
    refine ⟨hdone', hcur', ?_⟩
    rcases hd' with h1 | ⟨hacc, q, hq, hqo, hqe⟩ | ⟨w', hacc⟩
    · exact Or.inl h1
    · exact Or.inr ⟨q, hq, hqo, hqe⟩
    · rw [hacc] at hemp; simp at hemp
  · rw [if_neg hemp]
    have hext : itemExtent wW (PlacedItem.textRun
        ((jsSplitSpace t).foldl (wordStep authorX maxW wW) (st, st.x, [])).2.1
        ((jsSplitSpace t).foldl (wordStep authorX maxW wW) (st, st.x, [])).2.2) =
        ((jsSplitSpace t).foldl (wordStep authorX maxW wW) (st, st.x, [])).1.x := by
      rw [hx']; rfl
    refine ⟨hdone', ?_, ?_⟩
    · refine lineOKS_append wW maxW _ _ hcur' ?_
      by_cases hxm : ((jsSplitSpace t).foldl (wordStep authorX maxW wW)
          (st, st.x, [])).1.x ≤ maxW
      · exact Or.inl (hext ▸ hxm)
      · rcases hd' with h1 | ⟨hacc, q, hq, hqo, hqe⟩ | ⟨w', hacc⟩
        · exact absurd h1 hxm
        · rw [hacc] at hemp; simp at hemp
        · rw [hacc] at hext ⊢
          exact Or.inr (Or.inl ⟨hext ▸ not_le.mp hxm, rfl⟩)
    · by_cases hxm : ((jsSplitSpace t).foldl (wordStep authorX maxW wW)
          (st, st.x, [])).1.x ≤ maxW
      · exact Or.inl hxm
      · rcases hd' with h1 | ⟨hacc, q, hq, hqo, hqe⟩ | ⟨w', hacc⟩
        · exact absurd h1 hxm
        · rw [hacc] at hemp; simp at hemp
        · refine Or.inr ⟨PlacedItem.textRun _ _,
            List.mem_append_right _ (List.mem_singleton_self _), ?_, hext⟩
          rw [hacc] at hext ⊢
          exact ⟨hext ▸ not_le.mp hxm, rfl⟩

/-- The emoji branch preserves the between-spans invariant. -/
theorem emojiStep_inv (authorX maxW : ℚ) (wW : String → ℚ) (st : WrapSt)
    (e : Emoji) (h : wrapInv wW maxW st) :
    wrapInv wW maxW (emojiStep authorX maxW st e) := by
  obtain ⟨hdone, hcur, hda⟩ := h
  unfold emojiStep
  by_cases hfit : maxW < st.x + EMOJI_SIZE
  · rw [if_pos hfit]
    refine ⟨?_, ?_, ?_⟩
    · intro L hL
      rcases List.mem_append.mp hL with hmem | hmem
      · exact hdone L hmem
      · have hLeq : L = st.cur := by simpa using hmem
        subst hLeq
        exact hcur
    · intro p hp
      have hpe : p = PlacedItem.emojiGlyph authorX e := by simpa using hp
      subst hpe
      by_cases hgm : authorX + EMOJI_SIZE ≤ maxW
      · exact Or.inl ((itemExtent_emojiGlyph wW authorX e) ▸ hgm)
      · exact Or.inr (Or.inl ⟨(itemExtent_emojiGlyph wW authorX e) ▸
          not_le.mp hgm, rfl⟩)
    · by_cases hgm : authorX + EMOJI_SIZE ≤ maxW
      · exact Or.inl hgm
      · exact Or.inr ⟨PlacedItem.emojiGlyph authorX e,
          List.mem_singleton_self _,
          ⟨(itemExtent_emojiGlyph wW authorX e) ▸ not_le.mp hgm, rfl⟩,
          itemExtent_emojiGlyph wW authorX e⟩
  · rw [if_neg hfit]
    have hle : st.x + EMOJI_SIZE ≤ maxW := le_of_not_lt hfit
    refine ⟨hdone, ?_, Or.inl hle⟩
    exact lineOKS_append wW maxW _ _ hcur
      (Or.inl ((itemExtent_emojiGlyph wW st.x e) ▸ hle))

/-- Processing one span preserves the between-spans invariant. -/
theorem runStep_inv (authorX maxW : ℚ) (wW : String → ℚ) (st : WrapSt)
    (r : Run) (h : wrapInv wW maxW st) :
    wrapInv wW maxW (runStep authorX maxW wW st r) := by
  obtain ⟨rt, remo⟩ := r
  unfold runStep
  have h1 : wrapInv wW maxW
      (match rt with
       | some t => if t = "" then st else textSpanStep authorX maxW wW st t
       | none => st) := by
    cases rt with
    | none => exact h
    | some t =>
      show wrapInv wW maxW (if t = "" then st else textSpanStep authorX maxW wW st t)
      by_cases ht : t = ""
      · rw [if_pos ht]; exact h
      · rw [if_neg ht]; exact textSpanStep_inv authorX maxW wW st t h
  cases remo with
  | none => exact h1
  | some e => exact emojiStep_inv authorX maxW wW _ e h1

/-- The span fold preserves the between-spans invariant. -/
theorem foldl_runStep_inv (authorX maxW : ℚ) (wW : String → ℚ)
    (runs : List Run) :
    ∀ st, wrapInv wW maxW st →
      wrapInv wW maxW (runs.foldl (runStep authorX maxW wW) st) := by
  induction runs with
  | nil => intro st h; exact h
  | cons r rs ih =>
    intro st h
    exact ih _ (runStep_inv authorX maxW wW st r h)

/-- One word-loop step preserves the token account: state tokens plus pending
words gain exactly the processed word. -/
theorem stTokens_wordStep (authorX maxW : ℚ) (wW : String → ℚ)
    (s : WrapSt × ℚ × List String) (w : String) :
    stTokens (wordStep authorX maxW wW s w).1 ++
      ((wordStep authorX maxW wW s w).2.2.map Sum.inl) =
    stTokens s.1 ++ (s.2.2.map Sum.inl) ++ [Sum.inl w] := by
  obtain ⟨st, textX, acc⟩ := s
  unfold wordStep
  by_cases hw : maxW < st.x + wW w
  · rw [if_pos hw]
    simp [stTokens, lineTokens, itemTokens, List.map_append]
  · rw [if_neg hw]
    simp [stTokens, List.map_append]

/-- The word loop preserves the token account across a whole word list. -/
theorem stTokens_foldl_wordStep (authorX maxW : ℚ) (wW : String → ℚ)
    (words : List String) :
    ∀ s, stTokens (words.foldl (wordStep authorX maxW wW) s).1 ++
        ((words.foldl (wordStep authorX maxW wW) s).2.2.map Sum.inl) =
      stTokens s.1 ++ (s.2.2.map Sum.inl) ++ (words.map Sum.inl) := by
  induction words with
  | nil => intro s; simp
  | cons w ws ih =>
    intro s
    rw [List.foldl_cons, ih (wordStep authorX maxW wW s w),
      stTokens_wordStep authorX maxW wW s w]
    simp

/-- The text-span branch appends exactly the span's words to the layout's
token sequence. -/
theorem stTokens_textSpanStep (authorX maxW : ℚ) (wW : String → ℚ)
    (st : WrapSt) (t : String) :
    stTokens (textSpanStep authorX maxW wW st t) =
      stTokens st ++ ((jsSplitSpace t).map Sum.inl) := by
  have hh := stTokens_foldl_wordStep authorX maxW wW (jsSplitSpace t)
    (st, st.x, [])
  unfold textSpanStep
  by_cases hemp : ((jsSplitSpace t).foldl (wordStep authorX maxW wW)
      (st, st.x, [])).2.2.isEmpty
  · rw [if_pos hemp]
    rw [List.isEmpty_iff] at hemp
    rw [hemp] at hh
    simpa using hh
  · rw [if_neg hemp]
    have : stTokens ⟨((jsSplitSpace t).foldl (wordStep authorX maxW wW)
          (st, st.x, [])).1.done,
        ((jsSplitSpace t).foldl (wordStep authorX maxW wW)
          (st, st.x, [])).1.cur ++
          [PlacedItem.textRun
            ((jsSplitSpace t).foldl (wordStep authorX maxW wW)
              (st, st.x, [])).2.1
            ((jsSplitSpace t).foldl (wordStep authorX maxW wW)
              (st, st.x, [])).2.2],
        ((jsSplitSpace t).foldl (wordStep authorX maxW wW)
          (st, st.x, [])).1.x⟩ =
        stTokens ((jsSplitSpace t).foldl (wordStep authorX maxW wW)
          (st, st.x, [])).1 ++
        (((jsSplitSpace t).foldl (wordStep authorX maxW wW)
          (st, st.x, [])).2.2.map Sum.inl) := by
      simp [stTokens, lineTokens, itemTokens]
    rw [this, hh]
    simp

/-- The emoji branch appends exactly the emoji token. -/
theorem stTokens_emojiStep (authorX maxW : ℚ) (st : WrapSt) (e : Emoji) :
    stTokens (emojiStep authorX maxW st e) = stTokens st ++ [Sum.inr e] := by
  unfold emojiStep
  by_cases hfit : maxW < st.x + EMOJI_SIZE
  · rw [if_pos hfit]
    simp [stTokens, lineTokens, itemTokens, List.map_append]
  · rw [if_neg hfit]
    simp [stTokens, lineTokens, itemTokens, List.map_append]

/-- Processing one span appends exactly that span's tokens. -/
theorem stTokens_runStep (authorX maxW : ℚ) (wW : String → ℚ) (st : WrapSt)
    (r : Run) :
    stTokens (runStep authorX maxW wW st r) = stTokens st ++ runTokens r := by
  obtain ⟨rt, remo⟩ := r
  unfold runStep runTokens
  have h1 : ∀ st1 : WrapSt, stTokens
      (match rt with
       | some t => if t = "" then st1 else textSpanStep authorX maxW wW st1 t
       | none => st1) =
      stTokens st1 ++
        (match rt with
         | some t => if t = "" then [] else (jsSplitSpace t).map Sum.inl
         | none => []) := by
    intro st1
    cases rt with
    | none => simp
    | some t =>
      by_cases ht : t = ""
      · simp [ht]
      · simp only [ht, if_false]
        exact stTokens_textSpanStep authorX maxW wW st1 t
  cases remo with
  | none => rw [h1 st]; simp
  | some e =>
    show stTokens (emojiStep authorX maxW _ e) = _
    rw [stTokens_emojiStep, h1 st]
    simp

/-- The span fold appends exactly the input content's tokens. -/
theorem stTokens_foldl_runStep (authorX maxW : ℚ) (wW : String → ℚ)
    (runs : List Run) :
    ∀ st, stTokens (runs.foldl (runStep authorX maxW wW) st) =
      stTokens st ++ contentTokens runs := by
  induction runs with
  | nil => intro st; simp [contentTokens]
  | cons r rs ih =>
    intro st
    rw [List.foldl_cons, ih, stTokens_runStep]
    simp [contentTokens]

/-- **C5 (amended).** Whenever the starting horizontal offset is within the
maximum width, every layout line `wrapMessage` produces either keeps all its
placed spans within the maximum width or contains a single unsplit
word/emoji token that is by itself wider than its available width (the only
overflow case); and wrapping never splits a word or an emoji glyph — the
layout's token sequence equals the input content's token sequence. (For a
starting offset beyond the maximum width the first line can hold a lone
zero-width empty text run placed past the limit, refuting the unrestricted
claim.) -/
theorem wrapMessage_ok (wW : String → ℚ) (messageX authorX maxW : ℚ)
    (runs : List Run) (h : messageX ≤ maxW) :
    (∀ L ∈ wrapMessage wW messageX authorX maxW runs, lineOK wW maxW L) ∧
    layoutTokens (wrapMessage wW messageX authorX maxW runs) =
      contentTokens runs := by
  have hinit : wrapInv wW maxW ⟨[], [], messageX⟩ := by
    refine ⟨?_, ?_, Or.inl h⟩
    · intro L hL; exact absurd hL (List.not_mem_nil L)
    · intro p hp; exact absurd hp (List.not_mem_nil p)
  have hinv := foldl_runStep_inv authorX maxW wW runs ⟨[], [], messageX⟩ hinit
  obtain ⟨hdone, hcur, -⟩ := hinv
  constructor
  · intro L hL
    unfold wrapMessage at hL
    rcases List.mem_append.mp hL with hmem | hmem
    · exact lineOKS_lineOK wW maxW L (hdone L hmem)
    · have hLeq : L = (runs.foldl (runStep authorX maxW wW)
          ⟨[], [], messageX⟩).cur := by simpa using hmem
      subst hLeq
      exact lineOKS_lineOK wW maxW _ hcur
  · have htok := stTokens_foldl_runStep authorX maxW wW runs ⟨[], [], messageX⟩
    unfold wrapMessage layoutTokens
    rw [List.map_append]
    simp only [List.map_cons, List.map_nil, List.flatten_append, List.flatten_cons,
      List.flatten_nil, List.append_nil]
    rw [← stTokens]
    rw [htok]
    simp [stTokens, lineTokens]

/-- **C5 witness.** The wrap-correctness conclusion at a concrete message
(`"hi there"` starting at offset 50 in a 200-wide canvas). -/
theorem wrapMessage_ok_witness :
    (50 : ℚ) ≤ 200 ∧
    ((∀ L ∈ wrapMessage (fun _ => (2:ℚ)) 50 40 200
        [{ text := some "hi there", emoji := none }],
      lineOK (fun _ => (2:ℚ)) 200 L) ∧
     layoutTokens (wrapMessage (fun _ => (2:ℚ)) 50 40 200
        [{ text := some "hi there", emoji := none }]) =
      contentTokens [{ text := some "hi there", emoji := none }]) :=
  ⟨by norm_num,
   wrapMessage_ok (fun _ => (2:ℚ)) 50 40 200
     [{ text := some "hi there", emoji := none }] (by norm_num)⟩

/-- **C5 counterexample.** With the starting offset 300 beyond the maximum
width 200, wrapping the single-word span `"a"` places a zero-width empty
text run at 300 on the first line: that line's placed spans reach past the
maximum width yet the line contains no unsplit word or emoji wider than the
available width, refuting the claim as stated for every starting offset. -/
theorem wrapMessage_overflow_cex :
    wrapMessage (fun _ => (2:ℚ)) 300 40 200 [{ text := some "a", emoji := none }] =
      [[PlacedItem.textRun 300 []], [PlacedItem.textRun 40 ["a"]]] ∧
    ¬ lineOK (fun _ => (2:ℚ)) 200 [PlacedItem.textRun 300 []] := by
  constructor
  · have h1 : ("a" : String) = "" ↔ False := by simp
    have h2 : ('a' = ' ') = False := by simp
    norm_num [wrapMessage, runStep, textSpanStep, wordStep, jsSplitSpace,
      jsSplitAux, h1, h2]
  · intro hcon
    rcases hcon with hall | ⟨p, hp, hov⟩
    · have hx := hall (PlacedItem.textRun 300 []) (List.mem_singleton_self _)
      rw [itemExtent_textRun] at hx
      norm_num at hx
    · have hpe : p = PlacedItem.textRun 300 [] := by simpa using hp
      subst hpe
      exact absurd hov.2 (by simp [isSingleToken])
